import Mathlib

/-!
# Verification of the sst-hono-apigw-resourcepolicy core

Shallow embedding of the repository's core logic:

* `sst.config.ts` — allow-list parsing from environment variables, resource
  policy construction, and the API gateway transform that attaches the
  serialized policy (the `run` function, lines 46–102).
* the Hono debug handler (two identical try/catch variants) — the `/debug`
  route that calls STS `GetCallerIdentity` and returns a structured JSON
  response.

JavaScript runtime values that can appear in parsed JSON are modelled by the
inductive type `Json` (numbers are modelled as integers; floating point is
not modelled).  Platform builtins (`fs.readFileSync` + `JSON.parse` for the
allow-list file, the STS call) are modelled as oracles passed in as
arguments.  `JSON.stringify` is modelled by `Json.stringify`, character for
character faithful to the JavaScript builtin on the modelled values
(no whitespace, insertion-ordered keys, standard string escaping).
-/

/-- A JSON value as produced by the JavaScript runtime's `JSON.parse`.
Numbers are modelled as integers. -/
inductive Json where
  | null : Json
  | bool (b : Bool) : Json
  | num (n : Int) : Json
  | str (s : String) : Json
  | arr (elems : List Json) : Json
  | obj (fields : List (String × Json)) : Json
deriving Repr

/-! ## The resource policy data model (`interface ResourcePolicy`, sst.config.ts lines 7–21) -/

/-- One statement of the resource policy.  `conditionOrgIds` models the
array stored at `Condition["ForAnyValue:StringEquals"]["aws:PrincipalOrgID"]`.
Its elements are `Json` values: the TypeScript declaration says `string[]`,
but at runtime the array is whatever the allow-list source produced. -/
structure PolicyStatement where
  Sid : String
  Effect : String
  Principal : String
  Action : String
  Resource : String
  conditionOrgIds : List Json
deriving Repr

/-- The resource policy document (`interface ResourcePolicy`). -/
structure ResourcePolicy where
  Version : String
  Statement : List PolicyStatement
deriving Repr

/-! ## Serialization (`JSON.stringify`, used at sst.config.ts line 95) -/

/-- Lower-case hexadecimal digit, as emitted by `JSON.stringify` in
`\u00XX` escapes. -/
def hexDigit (n : Nat) : Char :=
  if n < 10 then Char.ofNat (48 + n) else Char.ofNat (87 + n)

/-- Decimal digit character. -/
def digitChar (d : Nat) : Char := Char.ofNat (48 + d)

/-- The escape sequence `JSON.stringify` emits for one character of a
string: `"` and `\` are backslash-escaped, the five named control
characters use their short escapes, the remaining control characters
use `\u00XX`, and every other character is emitted verbatim. -/
def escapeChar (c : Char) : List Char :=
  if c = '"' then ['\\', '"']
  else if c = '\\' then ['\\', '\\']
  else if c = '\x08' then ['\\', 'b']
  else if c = '\x0c' then ['\\', 'f']
  else if c = '\n' then ['\\', 'n']
  else if c = '\r' then ['\\', 'r']
  else if c = '\t' then ['\\', 't']
  else if c.toNat < 32 then
    ['\\', 'u', '0', '0', hexDigit (c.toNat / 16), hexDigit (c.toNat % 16)]
  else [c]

/-- A JSON string literal: quote, escaped characters, quote. -/
def encodeString (s : String) : List Char :=
  '"' :: (s.data.map escapeChar).flatten ++ ['"']

/-- Big-endian decimal digits of a natural number. -/
def renderNat (n : Nat) : List Char :=
  if n = 0 then ['0'] else ((Nat.digits 10 n).map digitChar).reverse

/-- Decimal rendering of an integer (minus sign, then digits). -/
def renderInt (n : Int) : List Char :=
  if n < 0 then '-' :: renderNat n.natAbs else renderNat n.toNat

mutual

/-- The characters `JSON.stringify` emits for a value (no whitespace). -/
def Json.render : Json → List Char
  | .null => "null".data
  | .bool true => "true".data
  | .bool false => "false".data
  | .num n => renderInt n
  | .str s => encodeString s
  | .arr [] => ['[', ']']
  | .arr (x :: xs) => '[' :: (Json.render x ++ Json.renderArrTail xs)
  | .obj [] => ['{', '}']
  | .obj (f :: fs) => '{' :: (Json.renderField f ++ Json.renderObjTail fs)

/-- Remaining array elements, each preceded by a comma, then `]`. -/
def Json.renderArrTail : List Json → List Char
  | [] => [']']
  | x :: xs => ',' :: (Json.render x ++ Json.renderArrTail xs)

/-- One object field: quoted key, colon, value. -/
def Json.renderField : String × Json → List Char
  | (k, v) => encodeString k ++ ':' :: Json.render v

/-- Remaining object fields, each preceded by a comma, then `}`. -/
def Json.renderObjTail : List (String × Json) → List Char
  | [] => ['}']
  | f :: fs => ',' :: (Json.renderField f ++ Json.renderObjTail fs)

end

/-- Model of `JSON.stringify` restricted to the modelled values. -/
def Json.stringify (j : Json) : String := String.mk j.render

/-- The JSON tree of one policy statement, with the key order of the object
literal at sst.config.ts lines 70–81 (the order `JSON.stringify` uses). -/
def statementToJson (s : PolicyStatement) : Json :=
  .obj
    [ ("Sid", .str s.Sid)
    , ("Effect", .str s.Effect)
    , ("Principal", .str s.Principal)
    , ("Action", .str s.Action)
    , ("Resource", .str s.Resource)
    , ("Condition", .obj
        [("ForAnyValue:StringEquals", .obj
          [("aws:PrincipalOrgID", .arr s.conditionOrgIds)])]) ]

/-- The JSON tree of a policy document (key order of lines 67–83). -/
def policyToJson (p : ResourcePolicy) : Json :=
  .obj
    [ ("Version", .str p.Version)
    , ("Statement", .arr (p.Statement.map statementToJson)) ]

/-- Recovers a policy statement from its JSON tree (re-parsing side of the
round trip). -/
def statementOfJson : Json → Option PolicyStatement
  | .obj
      [ ("Sid", .str sid)
      , ("Effect", .str eff)
      , ("Principal", .str pr)
      , ("Action", .str act)
      , ("Resource", .str res)
      , ("Condition", .obj
          [("ForAnyValue:StringEquals", .obj
            [("aws:PrincipalOrgID", .arr ids)])]) ] =>
      some ⟨sid, eff, pr, act, res, ids⟩
  | _ => none

/-- Recovers every statement of a JSON array, failing if any element is
not a statement tree. -/
def statementsOfJson : List Json → Option (List PolicyStatement)
  | [] => some []
  | j :: js =>
    match statementOfJson j, statementsOfJson js with
    | some s, some ss => some (s :: ss)
    | _, _ => none

/-- Recovers a policy document from its JSON tree. -/
def policyOfJson : Json → Option ResourcePolicy
  | .obj [("Version", .str v), ("Statement", .arr stmts)] =>
      match statementsOfJson stmts with
      | some ss => some { Version := v, Statement := ss }
      | none => none
  | _ => none

/-! ## Allow-list parsing (sst.config.ts lines 46–62) -/

/-- JavaScript truthiness of an optional environment-variable value:
unset and the empty string are falsy. -/
def envTruthy : Option String → Bool
  | none => false
  | some s => !s.isEmpty

/-- Model of JavaScript `str.split(",")` on the character list: splits at
every comma; the empty string yields one empty segment. -/
def splitOnCommaChars : List Char → List (List Char)
  | [] => [[]]
  | c :: rest =>
    if c = ',' then [] :: splitOnCommaChars rest
    else
      match splitOnCommaChars rest with
      | [] => [[c]]
      | seg :: segs => (c :: seg) :: segs

/-- Model of JavaScript `str.split(",")`. -/
def splitOnComma (s : String) : List String :=
  (splitOnCommaChars s.data).map String.mk

/-- Model of JavaScript `str.trim()`: drops leading and trailing
whitespace characters. -/
def trimString (s : String) : String :=
  String.mk
    (((s.data.dropWhile Char.isWhitespace).reverse.dropWhile
      Char.isWhitespace).reverse)

/-- The provisioning-time failure: the `catch` block at lines 56–59 logs the
error and calls `process.exit(1)`.  Aborting is modelled as `Except.error`
carrying one of these. -/
inductive ConfigError where
  /-- `fs.readFileSync` or `JSON.parse` threw. -/
  | readOrParseFailed : ConfigError
  /-- the parsed JSON value was not an array (line 53–55). -/
  | notAnArray : ConfigError
deriving Repr, DecidableEq

/-- Allow-list construction from the two environment sources
(sst.config.ts lines 48–62).

`readAndParse` is the oracle modelling `fs.readFileSync(path, "utf-8")`
followed by `JSON.parse`: it either throws (`.error`) or yields the parsed
`Json` value for the given path.  `fileVar` and `inlineVar` are the values
of `ALLOWED_ACCOUNTS_FILE` and `ALLOWED_ACCOUNTS`.

Elements of the result are `Json` values: the file branch checks only
`Array.isArray`, so the array's elements are accepted verbatim; the inline
branch splits on commas and trims each piece, producing strings. -/
def parseAllowedAccounts (readAndParse : String → Except String Json)
    (fileVar inlineVar : Option String) : Except ConfigError (List Json) :=
  if envTruthy fileVar then
    match readAndParse (fileVar.getD "") with
    | .error _ => .error .readOrParseFailed
    | .ok (Json.arr xs) => .ok xs
    | .ok _ => .error .notAnArray
  else if envTruthy inlineVar then
    .ok ((splitOnComma (inlineVar.getD "")).map (fun s => Json.str (trimString s)))
  else
    .ok []

/-! ## Policy construction (sst.config.ts lines 64–84) -/

/-- Builds the resource policy when the allow-list is non-empty
(`if (allowedAccounts.length > 0)`), `undefined` (= `none`) otherwise. -/
def buildPolicy (allowedAccounts : List Json) : Option ResourcePolicy :=
  if allowedAccounts.length > 0 then
    some
      { Version := "2012-10-17"
        Statement :=
          [ { Sid := "AllowAccessForAllowedAccounts"
              Effect := "Allow"
              Principal := "*"
              Action := "execute-api:Invoke"
              Resource := "*"
              conditionOrgIds := allowedAccounts } ] }
  else
    none

/-- The provisioning pipeline: parse the allow-list, then build the policy.
A `ConfigError` aborts (models `process.exit(1)`), so no policy document is
ever produced on the error path. -/
def provision (readAndParse : String → Except String Json)
    (fileVar inlineVar : Option String) :
    Except ConfigError (Option ResourcePolicy) :=
  match parseAllowedAccounts readAndParse fileVar inlineVar with
  | .error e => .error e
  | .ok accounts => .ok (buildPolicy accounts)

/-! ## The API transform (sst.config.ts lines 87–102) -/

/-- The fields of `aws.apigateway.RestApiArgs` relevant here; `policy` is the
serialized resource policy, the other fields stand for the rest of the
arguments object. -/
structure RestApiArgs where
  name : Option String
  description : Option String
  policy : Option String
  tags : List (String × String)
deriving Repr

/-- The `transform.api` callback: if a policy was built it sets
`args.policy` to the `JSON.stringify` of the policy (and logs); it always
returns `undefined` (second component).  -/
def apiTransform (policy : Option ResourcePolicy) (args : RestApiArgs) :
    RestApiArgs × Option String :=
  match policy with
  | some p => ({ args with policy := some (Json.stringify (policyToJson p)) }, none)
  | none => (args, none)

/-! ## The debug handler (src/unnamed/part_000, both variants) -/

/-- A JavaScript value thrown by the STS call: either an `Error` instance
(carrying `.message` and `.stack`) or any other value, of which only its
`String(...)` coercion is observable in the handler. -/
inductive JsThrown where
  | errorObj (message : String) (stack : String) : JsThrown
  | other (stringRep : String) : JsThrown
deriving Repr, DecidableEq

/-- `error instanceof Error ? error.message : String(error)`. -/
def normalizeError : JsThrown → String
  | .errorObj m _ => m
  | .other s => s

/-- Body of the JSON response of the `/debug` route: either the success
shape `{message, callerIdentity}` or the failure shape `{message, error}`.
`α` is the caller-identity structure returned by the STS client, passed
through verbatim. -/
inductive DebugBody (α : Type) where
  | success (message : String) (callerIdentity : α) : DebugBody α
  | failure (message : String) (error : String) : DebugBody α
deriving Repr

/-- An HTTP response of the `/debug` route. -/
structure DebugResponse (α : Type) where
  status : Nat
  body : DebugBody α
deriving Repr

/-- The try/catch of the `/debug` route (identical in both handler
variants: part_000 lines 28–40 and 64–76).  `stsResult` is the outcome of
`stsClient.send(new GetCallerIdentityCommand({}))`: either the resolved
caller identity or the thrown value.  `c.json(body)` defaults to status
200; the catch branch passes 500 explicitly. -/
def debugHandler {α : Type} (stsResult : Except JsThrown α) : DebugResponse α :=
  match stsResult with
  | .ok callerIdentity =>
      { status := 200
        body := .success
          "Lambda executed successfully. Check CloudWatch logs for caller identity details."
          callerIdentity }
  | .error e =>
      { status := 500
        body := .failure "Error retrieving caller identity" (normalizeError e) }

/-! ## Basic theorems about provisioning and the handlers -/

/-- C1: for every non-empty allow-list, the policy builder produces a
`ResourcePolicy` with exactly one statement, `Effect = "Allow"`,
`Principal = "*"`, `Action = "execute-api:Invoke"`, `Resource = "*"`,
and a condition binding the full allow-list (the condition's entries are
exactly the input entries, hence equal as sets, order-independently). -/
theorem buildPolicy_nonempty_single_statement (l : List Json) (h : l ≠ []) :
    ∃ st, buildPolicy l = some { Version := "2012-10-17", Statement := [st] } ∧
      st.Effect = "Allow" ∧ st.Principal = "*" ∧
      st.Action = "execute-api:Invoke" ∧ st.Resource = "*" ∧
      st.conditionOrgIds = l ∧ (∀ x, x ∈ st.conditionOrgIds ↔ x ∈ l) := by
  refine ⟨{ Sid := "AllowAccessForAllowedAccounts", Effect := "Allow",
            Principal := "*", Action := "execute-api:Invoke", Resource := "*",
            conditionOrgIds := l },
    ?_, rfl, rfl, rfl, rfl, rfl, fun _ => Iff.rfl⟩
  unfold buildPolicy
  rw [if_pos (List.length_pos.mpr h)]

theorem buildPolicy_nonempty_single_statement_witness :
    ([Json.str "o-abc123"] ≠ ([] : List Json)) ∧
    (∃ st, buildPolicy [Json.str "o-abc123"]
        = some { Version := "2012-10-17", Statement := [st] } ∧
      st.Effect = "Allow" ∧ st.Principal = "*" ∧
      st.Action = "execute-api:Invoke" ∧ st.Resource = "*" ∧
      st.conditionOrgIds = [Json.str "o-abc123"] ∧
      (∀ x, x ∈ st.conditionOrgIds ↔ x ∈ [Json.str "o-abc123"])) :=
  ⟨by simp, buildPolicy_nonempty_single_statement [Json.str "o-abc123"] (by simp)⟩

/-- C2: for the empty allow-list the builder returns no policy
(`undefined`) and the transform leaves the gateway arguments unchanged
(and returns `undefined`). -/
theorem buildPolicy_empty_none :
    buildPolicy [] = none ∧
    ∀ args : RestApiArgs, apiTransform (buildPolicy []) args = (args, none) :=
  ⟨rfl, fun _ => rfl⟩

/-- C3: if the file source is present (truthy) and its content cannot be
read/parsed, or parses to a non-array, provisioning aborts with a
configuration error, so no policy document is produced. -/
theorem fileSource_parse_failure_aborts
    (readAndParse : String → Except String Json) (p : String)
    (inlineVar : Option String) (hp : p.isEmpty = false)
    (hbad : ∀ xs, readAndParse p ≠ .ok (Json.arr xs)) :
    ∃ e, provision readAndParse (some p) inlineVar = .error e := by
  cases hr : readAndParse p with
  | error msg =>
    exact ⟨.readOrParseFailed, by
      simp [provision, parseAllowedAccounts, envTruthy, hp, hr]⟩
  | ok j =>
    cases j with
    | arr xs => exact absurd hr (hbad xs)
    | null =>
      exact ⟨.notAnArray, by
        simp [provision, parseAllowedAccounts, envTruthy, hp, hr]⟩
    | bool b =>
      exact ⟨.notAnArray, by
        simp [provision, parseAllowedAccounts, envTruthy, hp, hr]⟩
    | num n =>
      exact ⟨.notAnArray, by
        simp [provision, parseAllowedAccounts, envTruthy, hp, hr]⟩
    | str s =>
      exact ⟨.notAnArray, by
        simp [provision, parseAllowedAccounts, envTruthy, hp, hr]⟩
    | obj fs =>
      exact ⟨.notAnArray, by
        simp [provision, parseAllowedAccounts, envTruthy, hp, hr]⟩

theorem fileSource_parse_failure_aborts_witness :
    ("cfg.json".isEmpty = false) ∧
    (∀ xs, (fun _ : String => (Except.ok (Json.obj []) : Except String Json))
        "cfg.json" ≠ .ok (Json.arr xs)) ∧
    ∃ e, provision (fun _ => (Except.ok (Json.obj []) : Except String Json))
        (some "cfg.json") (some "o-1,o-2") = .error e :=
  ⟨rfl, fun _ h => by simp at h,
    fileSource_parse_failure_aborts _ "cfg.json" (some "o-1,o-2") rfl
      (fun _ h => by simp at h)⟩

/-- C4: when both sources are supplied, the result is determined by the
file source alone: it is independent of the inline variable, and when the
file parses to an array that array is the allow-list. -/
theorem fileSource_precedence
    (readAndParse : String → Except String Json) (p : String)
    (iv iv' : Option String) (hp : p.isEmpty = false) :
    parseAllowedAccounts readAndParse (some p) iv
      = parseAllowedAccounts readAndParse (some p) iv' ∧
    (∀ xs, readAndParse p = .ok (Json.arr xs) →
      parseAllowedAccounts readAndParse (some p) iv = .ok xs) := by
  constructor
  · simp [parseAllowedAccounts, envTruthy, hp]
  · intro xs hxs
    simp [parseAllowedAccounts, envTruthy, hp, hxs]

theorem fileSource_precedence_witness :
    ("orgs.json".isEmpty = false) ∧
    ((fun _ : String =>
        (Except.ok (Json.arr [Json.str "o-file"]) : Except String Json))
      "orgs.json" = .ok (Json.arr [Json.str "o-file"])) ∧
    parseAllowedAccounts
        (fun _ => (Except.ok (Json.arr [Json.str "o-file"]) : Except String Json))
        (some "orgs.json") (some "o-inline") = .ok [Json.str "o-file"] :=
  ⟨rfl, rfl,
    (fileSource_precedence _ "orgs.json" (some "o-inline") none rfl).2
      [Json.str "o-file"] rfl⟩

/-- C5: every failure of the STS call — `Error` objects and non-`Error`
thrown values alike — yields status 500 with the fixed failure message and
the normalized error string (`.message` of an `Error`, the string coercion
otherwise).  `debugHandler` is a total function, so no failure escapes the
handler boundary. -/
theorem debugHandler_failure_normalized (α : Type) (e : JsThrown) :
    debugHandler (α := α) (.error e)
      = { status := 500
          body := .failure "Error retrieving caller identity" (normalizeError e) } ∧
    (∀ s, normalizeError (.other s) = s) ∧
    (∀ m st, normalizeError (.errorObj m st) = m) :=
  ⟨rfl, fun _ => rfl, fun _ _ => rfl⟩

/-- C6: every successful STS response yields status 200 with the fixed
success message and the resolved identity passed through verbatim. -/
theorem debugHandler_success_verbatim (α : Type) (callerIdentity : α) :
    debugHandler (.ok callerIdentity)
      = { status := 200
          body := .success
            "Lambda executed successfully. Check CloudWatch logs for caller identity details."
            callerIdentity } := rfl

/-- C7 counterexample: the inline source `"a,,b"` (truthy, so it is used)
produces the allow-list `["a", "", "b"]`, which contains the empty string;
the builder then puts that empty entry verbatim into the policy's
condition.  So an AllowList may contain entries that are not non-empty
strings. -/
theorem allowList_nonempty_entries_cex :
    parseAllowedAccounts (fun _ => Except.error "unused") none (some "a,,b")
        = .ok [Json.str "a", Json.str "", Json.str "b"] ∧
    ¬ (∀ x ∈ [Json.str "a", Json.str "", Json.str "b"],
        ∃ s : String, x = Json.str s ∧ s ≠ "") ∧
    ∃ pd, buildPolicy [Json.str "a", Json.str "", Json.str "b"] = some pd ∧
      ∃ st ∈ pd.Statement, Json.str "" ∈ st.conditionOrgIds := by
  refine ⟨by rfl, ?_, ?_⟩
  · intro h
    rcases h (Json.str "") (by simp) with ⟨s, hs, hne⟩
    cases hs
    exact hne rfl
  · refine ⟨{ Version := "2012-10-17",
              Statement := [{ Sid := "AllowAccessForAllowedAccounts",
                              Effect := "Allow", Principal := "*",
                              Action := "execute-api:Invoke", Resource := "*",
                              conditionOrgIds := [Json.str "a", Json.str "",
                                Json.str "b"] }] },
      by rfl, ?_⟩
    exact ⟨{ Sid := "AllowAccessForAllowedAccounts",
             Effect := "Allow", Principal := "*",
             Action := "execute-api:Invoke", Resource := "*",
             conditionOrgIds := [Json.str "a", Json.str "", Json.str "b"] },
      by simp, by simp⟩

/-- C7 amended: every allow-list built from the inline source contains only
strings (each a whitespace-trimmed comma-separated segment, possibly
empty), and every policy's condition holds exactly the allow-list entries
verbatim; the code enforces no non-emptiness. -/
theorem allowList_inline_entries_strings
    (readAndParse : String → Except String Json) (iv : String) (l : List Json)
    (h : parseAllowedAccounts readAndParse none (some iv) = .ok l) :
    (∀ x ∈ l, ∃ s : String, x = Json.str (trimString s)) ∧
    (∀ l' pd, buildPolicy l' = some pd →
      ∀ st ∈ pd.Statement, st.conditionOrgIds = l') := by
  constructor
  · intro x hx
    by_cases hiv : iv.isEmpty
    · have hl : l = [] := by
        simp [parseAllowedAccounts, envTruthy, hiv] at h
        exact h
      subst hl
      cases hx
    · have hl : l = (splitOnComma iv).map (fun s => Json.str (trimString s)) := by
        simp [parseAllowedAccounts, envTruthy, hiv] at h
        first
        | exact h
        | exact h.symm
      subst hl
      rcases List.mem_map.mp hx with ⟨s, _, rfl⟩
      exact ⟨s, rfl⟩
  · intro l' pd hpd st hst
    unfold buildPolicy at hpd
    by_cases hl : l'.length > 0
    · rw [if_pos hl] at hpd
      cases hpd
      simp only [List.mem_singleton] at hst
      subst hst
      rfl
    · rw [if_neg hl] at hpd
      cases hpd

theorem allowList_inline_entries_strings_witness :
    (parseAllowedAccounts (fun _ => Except.error "unused") none (some "a,,b")
        = .ok [Json.str "a", Json.str "", Json.str "b"]) ∧
    (∀ x ∈ [Json.str "a", Json.str "", Json.str "b"],
      ∃ s : String, x = Json.str (trimString s)) :=
  ⟨by rfl,
    (allowList_inline_entries_strings (fun _ => Except.error "unused") "a,,b"
      [Json.str "a", Json.str "", Json.str "b"] (by rfl)).1⟩

/-- C9: provisioning aborts exactly when the file variable is truthy and
its content fails to read/parse or is not an array; a successfully parsed
array — string elements or not — is accepted verbatim and fed to the
builder; the inline path never aborts. -/
theorem provision_abort_iff (readAndParse : String → Except String Json)
    (fileVar inlineVar : Option String) :
    ((∃ e, provision readAndParse fileVar inlineVar = .error e) ↔
      (envTruthy fileVar = true ∧
        ∀ xs, readAndParse (fileVar.getD "") ≠ .ok (Json.arr xs))) ∧
    (∀ xs, envTruthy fileVar = true →
      readAndParse (fileVar.getD "") = .ok (Json.arr xs) →
      provision readAndParse fileVar inlineVar = .ok (buildPolicy xs)) ∧
    (fileVar = none →
      ∃ accounts, provision readAndParse fileVar inlineVar = .ok accounts) := by
  refine ⟨⟨?_, ?_⟩, ?_, ?_⟩
  · rintro ⟨e, he⟩
    by_cases ht : envTruthy fileVar = true
    · refine ⟨ht, fun xs hxs => ?_⟩
      rw [show provision readAndParse fileVar inlineVar = .ok (buildPolicy xs) by
        simp [provision, parseAllowedAccounts, ht, hxs]] at he
      cases he
    · exfalso
      by_cases hi : envTruthy inlineVar = true
      · rw [show provision readAndParse fileVar inlineVar
            = .ok (buildPolicy ((splitOnComma (inlineVar.getD "")).map
              (fun s => Json.str (trimString s)))) by
          simp [provision, parseAllowedAccounts, ht, hi]] at he
        cases he
      · rw [show provision readAndParse fileVar inlineVar
            = .ok (buildPolicy []) by
          simp [provision, parseAllowedAccounts, ht, hi]] at he
        cases he
  · rintro ⟨ht, hbad⟩
    cases hr : readAndParse (fileVar.getD "") with
    | error msg =>
      exact ⟨.readOrParseFailed, by
        simp [provision, parseAllowedAccounts, ht, hr]⟩
    | ok j =>
      cases j with
      | arr xs => exact absurd hr (hbad xs)
      | null =>
        exact ⟨.notAnArray, by simp [provision, parseAllowedAccounts, ht, hr]⟩
      | bool b =>
        exact ⟨.notAnArray, by simp [provision, parseAllowedAccounts, ht, hr]⟩
      | num n =>
        exact ⟨.notAnArray, by simp [provision, parseAllowedAccounts, ht, hr]⟩
      | str s =>
        exact ⟨.notAnArray, by simp [provision, parseAllowedAccounts, ht, hr]⟩
      | obj fs =>
        exact ⟨.notAnArray, by simp [provision, parseAllowedAccounts, ht, hr]⟩
  · intro xs ht hxs
    simp [provision, parseAllowedAccounts, ht, hxs]
  · rintro rfl
    cases inlineVar with
    | none =>
      exact ⟨buildPolicy [], by simp [provision, parseAllowedAccounts, envTruthy]⟩
    | some s =>
      by_cases hs : s.isEmpty
      · exact ⟨buildPolicy [],
          by simp [provision, parseAllowedAccounts, envTruthy, hs]⟩
      · exact ⟨buildPolicy ((splitOnComma s).map (fun t => Json.str (trimString t))),
          by simp [provision, parseAllowedAccounts, envTruthy, hs]⟩

theorem provision_abort_iff_witness :
    (envTruthy (some "f.json") = true) ∧
    ((fun _ : String =>
        (Except.ok (Json.arr [Json.num 5]) : Except String Json))
      ((some "f.json").getD "") = .ok (Json.arr [Json.num 5])) ∧
    provision (fun _ => (Except.ok (Json.arr [Json.num 5]) : Except String Json))
        (some "f.json") (some "o-inline") = .ok (buildPolicy [Json.num 5]) :=
  ⟨rfl, rfl,
    (provision_abort_iff
        (fun _ => (Except.ok (Json.arr [Json.num 5]) : Except String Json))
        (some "f.json") (some "o-inline")).2.1 [Json.num 5] rfl rfl⟩

/-- C10: the transform returns `undefined`, preserves every argument field
other than `policy`, leaves the arguments entirely unchanged when no
policy was built (in particular for the empty allow-list), and sets
`policy` to the serialized document exactly when one was built. -/
theorem apiTransform_frame (po : Option ResourcePolicy) (args : RestApiArgs) :
    (apiTransform (buildPolicy []) args = (args, none)) ∧
    ((apiTransform po args).2 = none) ∧
    ((apiTransform po args).1.name = args.name ∧
      (apiTransform po args).1.description = args.description ∧
      (apiTransform po args).1.tags = args.tags) ∧
    (po = none → (apiTransform po args).1 = args) ∧
    (∀ pd, po = some pd →
      (apiTransform po args).1.policy
        = some (Json.stringify (policyToJson pd))) := by
  refine ⟨rfl, ?_, ?_, ?_, ?_⟩
  · cases po <;> rfl
  · cases po <;> exact ⟨rfl, rfl, rfl⟩
  · rintro rfl; rfl
  · rintro pd rfl; rfl

theorem apiTransform_frame_witness :
    ((none : Option ResourcePolicy) = none →
      (apiTransform none (⟨some "MyApi", none, none, []⟩ : RestApiArgs)).1
        = (⟨some "MyApi", none, none, []⟩ : RestApiArgs)) ∧
    (apiTransform none (⟨some "MyApi", none, none, []⟩ : RestApiArgs)).1
      = (⟨some "MyApi", none, none, []⟩ : RestApiArgs) :=
  ⟨(apiTransform_frame none _).2.2.2.1,
    (apiTransform_frame none (⟨some "MyApi", none, none, []⟩ : RestApiArgs)).2.2.2.1
      rfl⟩

/-! ## A JSON parser

Model of `JSON.parse` sufficient for the round-trip property: a
recursive-descent parser over the character list, with a fuel argument
bounding the recursion depth.  It handles exactly the grammar that
`Json.render` emits (no whitespace skipping is needed because
`JSON.stringify` emits none). -/

/-- Is `c` a decimal digit? -/
def isDigitChar (c : Char) : Bool := 48 ≤ c.toNat && c.toNat ≤ 57

/-- Value of a hexadecimal digit character. -/
def hexVal (c : Char) : Option Nat :=
  if 48 ≤ c.toNat && c.toNat ≤ 57 then some (c.toNat - 48)
  else if 97 ≤ c.toNat && c.toNat ≤ 102 then some (c.toNat - 87)
  else if 65 ≤ c.toNat && c.toNat ≤ 70 then some (c.toNat - 55)
  else none

/-- Splits a character list into its longest digit prefix and the rest. -/
def takeDigits : List Char → List Char × List Char
  | [] => ([], [])
  | c :: rest =>
    if isDigitChar c then
      match takeDigits rest with
      | (ds, r) => (c :: ds, r)
    else ([], c :: rest)

/-- Numeric value of a big-endian digit-character list. -/
def digitsVal (ds : List Char) : Nat :=
  ds.foldl (fun a c => 10 * a + (c.toNat - 48)) 0

/-- Parses a non-empty run of decimal digits. -/
def parseNat (input : List Char) : Option (Nat × List Char) :=
  match takeDigits input with
  | ([], _) => none
  | (ds, rest) => some (digitsVal ds, rest)

/-- The character denoted by a short escape `\e`. -/
def unescapeChar (e : Char) : Option Char :=
  if e = '"' then some '"'
  else if e = '\\' then some '\\'
  else if e = '/' then some '/'
  else if e = 'b' then some '\x08'
  else if e = 'f' then some '\x0c'
  else if e = 'n' then some '\n'
  else if e = 'r' then some '\r'
  else if e = 't' then some '\t'
  else none

/-- Parses the body of a string literal (after the opening quote) up to and
including the closing quote; `acc` holds the characters read so far, in
reverse. -/
def parseStringBody : List Char → List Char → Option (String × List Char)
  | _, [] => none
  | acc, c :: rest =>
    if c = '"' then some (String.mk acc.reverse, rest)
    else if c = '\\' then
      match rest with
      | [] => none
      | 'u' :: h1 :: h2 :: h3 :: h4 :: rest2 =>
        match hexVal h1, hexVal h2, hexVal h3, hexVal h4 with
        | some a, some b, some d, some e =>
          parseStringBody (Char.ofNat (((a * 16 + b) * 16 + d) * 16 + e) :: acc)
            rest2
        | _, _, _, _ => none
      | e :: rest2 =>
        match unescapeChar e with
        | some c2 => parseStringBody (c2 :: acc) rest2
        | none => none
    else parseStringBody (c :: acc) rest

/-- Strips an expected literal character sequence off the input, returning
the remainder. -/
def stripLit : List Char → List Char → Option (List Char)
  | [], input => some input
  | p :: ps, input =>
    match input with
    | c :: cs => if c = p then stripLit ps cs else none
    | [] => none

mutual

/-- Parses one JSON value.  The fuel bounds the recursion depth; every
recursive call decreases it. -/
def parseValue : Nat → List Char → Option (Json × List Char)
  | 0, _ => none
  | fuel + 1, input =>
    match input with
    | [] => none
    | c :: rest =>
      if isDigitChar c then
        match parseNat (c :: rest) with
        | some (n, r) => some (.num (n : Int), r)
        | none => none
      else if c = '-' then
        match parseNat rest with
        | some (n, r) => some (.num (-(n : Int)), r)
        | none => none
      else if c = '"' then
        match parseStringBody [] rest with
        | some (s, r) => some (.str s, r)
        | none => none
      else if c = '[' then
        match parseArrElems fuel rest with
        | some (js, r) => some (.arr js, r)
        | none => none
      else if c = '{' then
        match parseObjFields fuel rest with
        | some (fs, r) => some (.obj fs, r)
        | none => none
      else if c = 'n' then
        match stripLit ['u', 'l', 'l'] rest with
        | some r => some (.null, r)
        | none => none
      else if c = 't' then
        match stripLit ['r', 'u', 'e'] rest with
        | some r => some (.bool true, r)
        | none => none
      else if c = 'f' then
        match stripLit ['a', 'l', 's', 'e'] rest with
        | some r => some (.bool false, r)
        | none => none
      else none

/-- Parses the elements of an array after `[`: either `]` at once, or a
first value followed by the tail. -/
def parseArrElems : Nat → List Char → Option (List Json × List Char)
  | 0, _ => none
  | fuel + 1, input =>
    match input with
    | [] => none
    | c :: rest =>
      if c = ']' then some ([], rest)
      else
        match parseValue fuel (c :: rest) with
        | some (j, r1) =>
          match parseArrTail fuel r1 with
          | some (js, r2) => some (j :: js, r2)
          | none => none
        | none => none

/-- Parses `]` or `, value …` after an array element. -/
def parseArrTail : Nat → List Char → Option (List Json × List Char)
  | 0, _ => none
  | fuel + 1, input =>
    match input with
    | ']' :: rest => some ([], rest)
    | ',' :: rest =>
      match parseValue fuel rest with
      | some (j, r1) =>
        match parseArrTail fuel r1 with
        | some (js, r2) => some (j :: js, r2)
        | none => none
      | none => none
    | _ => none

/-- Parses one object field: quoted key, `:`, value. -/
def parseField : Nat → List Char → Option ((String × Json) × List Char)
  | 0, _ => none
  | fuel + 1, input =>
    match input with
    | '"' :: rest =>
      match parseStringBody [] rest with
      | some (k, ':' :: r1) =>
        match parseValue fuel r1 with
        | some (v, r2) => some ((k, v), r2)
        | none => none
      | _ => none
    | _ => none

/-- Parses the fields of an object after `{`: either `}` at once, or a
first field followed by the tail. -/
def parseObjFields : Nat → List Char → Option (List (String × Json) × List Char)
  | 0, _ => none
  | fuel + 1, input =>
    match input with
    | [] => none
    | c :: rest =>
      if c = '}' then some ([], rest)
      else
        match parseField fuel (c :: rest) with
        | some (f, r1) =>
          match parseObjTail fuel r1 with
          | some (fs, r2) => some (f :: fs, r2)
          | none => none
        | none => none

/-- Parses `}` or `, field …` after an object field. -/
def parseObjTail : Nat → List Char → Option (List (String × Json) × List Char)
  | 0, _ => none
  | fuel + 1, input =>
    match input with
    | '}' :: rest => some ([], rest)
    | ',' :: rest =>
      match parseField fuel rest with
      | some (f, r1) =>
        match parseObjTail fuel r1 with
        | some (fs, r2) => some (f :: fs, r2)
        | none => none
      | none => none
    | _ => none

end

/-- Model of `JSON.parse`: parses the whole string to a single value.  The
input's length bounds the recursion depth, since every nesting level of a
value occupies at least one character. -/
def Json.parse (s : String) : Option Json :=
  match parseValue s.data.length s.data with
  | some (j, []) => some j
  | _ => none

/-! ## Round-trip: the parser inverts the renderer -/

theorem string_mk_data (s : String) : String.mk s.data = s := by
  cases s
  rfl

theorem hexVal_hexDigit (n : Nat) (h : n < 16) : hexVal (hexDigit n) = some n := by
  interval_cases n <;> rfl

theorem parseStringBody_hexEscape (acc rest : List Char) (c3 c4 : Char)
    (a b : Nat) (h3 : hexVal c3 = some a) (h4 : hexVal c4 = some b) :
    parseStringBody acc ('\\' :: 'u' :: '0' :: '0' :: c3 :: c4 :: rest)
      = parseStringBody
          (Char.ofNat (((0 * 16 + 0) * 16 + a) * 16 + b) :: acc) rest := by
  rw [parseStringBody.eq_def]
  simp only [h3, h4]
  rfl

theorem parseStringBody_escape (c : Char) (acc rest : List Char) :
    parseStringBody acc (escapeChar c ++ rest) = parseStringBody (c :: acc) rest := by
  unfold escapeChar
  by_cases h1 : c = '"'
  · subst h1; rfl
  rw [if_neg h1]
  by_cases h2 : c = '\\'
  · subst h2; rfl
  rw [if_neg h2]
  by_cases h3 : c = '\x08'
  · subst h3; rfl
  rw [if_neg h3]
  by_cases h4 : c = '\x0c'
  · subst h4; rfl
  rw [if_neg h4]
  by_cases h5 : c = '\n'
  · subst h5; rfl
  rw [if_neg h5]
  by_cases h6 : c = '\r'
  · subst h6; rfl
  rw [if_neg h6]
  by_cases h7 : c = '\t'
  · subst h7; rfl
  rw [if_neg h7]
  by_cases h8 : c.toNat < 32
  · rw [if_pos h8]
    show parseStringBody acc
        ('\\' :: 'u' :: '0' :: '0' :: hexDigit (c.toNat / 16)
          :: hexDigit (c.toNat % 16) :: rest) = _
    rw [parseStringBody_hexEscape acc rest _ _ _ _
        (hexVal_hexDigit (c.toNat / 16) (by omega))
        (hexVal_hexDigit (c.toNat % 16) (by omega))]
    have harith : (((0 * 16 + 0) * 16 + c.toNat / 16) * 16 + c.toNat % 16)
        = c.toNat := by omega
    rw [harith, Char.ofNat_toNat]
  · rw [if_neg h8]
    show parseStringBody acc (c :: rest) = _
    rw [parseStringBody.eq_def]
    simp only [h1, h2, if_false, ite_false]

theorem parseStringBody_flatten (cs : List Char) :
    ∀ (acc rest : List Char),
      parseStringBody acc ((cs.map escapeChar).flatten ++ '"' :: rest)
        = some (String.mk (acc.reverse ++ cs), rest) := by
  induction cs with
  | nil =>
    intro acc rest
    rw [List.map_nil, List.flatten_nil, List.nil_append, List.append_nil]
    rw [parseStringBody.eq_def]
    rfl
  | cons c cs ih =>
    intro acc rest
    simp only [List.map_cons, List.flatten_cons, List.append_assoc]
    rw [parseStringBody_escape, ih (c :: acc) rest]
    simp

theorem parseStringBody_encodeString (s : String) (rest : List Char) :
    parseStringBody [] ((s.data.map escapeChar).flatten ++ '"' :: rest)
      = some (s, rest) := by
  rw [parseStringBody_flatten]
  simp [string_mk_data]

/-- True when the list does not start with a digit (so a preceding number
literal cannot be extended by it). -/
def headNotDigit : List Char → Bool
  | [] => true
  | c :: _ => !isDigitChar c

theorem digitChar_toNat (d : Nat) (h : d < 10) : (digitChar d).toNat = 48 + d := by
  interval_cases d <;> rfl

theorem isDigitChar_digitChar (d : Nat) (h : d < 10) :
    isDigitChar (digitChar d) = true := by
  interval_cases d <;> rfl

theorem renderNat_digits (n : Nat) : ∀ c ∈ renderNat n, isDigitChar c = true := by
  intro c hc
  unfold renderNat at hc
  by_cases h : n = 0
  · rw [if_pos h] at hc
    simp at hc
    subst hc
    rfl
  · rw [if_neg h] at hc
    rw [List.mem_reverse] at hc
    rcases List.mem_map.mp hc with ⟨d, hd, rfl⟩
    exact isDigitChar_digitChar d (Nat.digits_lt_base (by norm_num) hd)

theorem renderNat_ne_nil (n : Nat) : renderNat n ≠ [] := by
  unfold renderNat
  by_cases h : n = 0
  · rw [if_pos h]; simp
  · rw [if_neg h]
    simp [Nat.digits_ne_nil_iff_ne_zero, h]

theorem foldl_digits_val (L : List Nat) (hL : ∀ d ∈ L, d < 10) :
    ∀ a : Nat,
      List.foldl (fun acc c => 10 * acc + (c.toNat - 48)) a
          ((L.map digitChar).reverse)
        = a * 10 ^ L.length + Nat.ofDigits 10 L := by
  induction L with
  | nil => intro a; simp
  | cons d T ih =>
    intro a
    have hd : d < 10 := hL d (by simp)
    have hT : ∀ x ∈ T, x < 10 := fun x hx => hL x (by simp [hx])
    simp only [List.map_cons, List.reverse_cons, List.foldl_append]
    rw [ih hT a]
    simp only [List.foldl_cons, List.foldl_nil]
    rw [digitChar_toNat d hd, Nat.ofDigits_cons]
    have h48 : 48 + d - 48 = d := by omega
    rw [h48]
    simp only [List.length_cons, pow_succ, Nat.cast_id]
    ring

theorem digitsVal_renderNat (n : Nat) : digitsVal (renderNat n) = n := by
  unfold digitsVal renderNat
  by_cases h : n = 0
  · rw [if_pos h]
    subst h
    rfl
  · rw [if_neg h]
    rw [foldl_digits_val _ (fun d hd => Nat.digits_lt_base (by norm_num) hd) 0]
    simp [Nat.ofDigits_digits]

theorem takeDigits_append (ds r : List Char)
    (hds : ∀ c ∈ ds, isDigitChar c = true) (hr : headNotDigit r = true) :
    takeDigits (ds ++ r) = (ds, r) := by
  induction ds with
  | nil =>
    simp only [List.nil_append]
    cases r with
    | nil => rfl
    | cons c t =>
      simp only [headNotDigit, Bool.not_eq_true'] at hr
      simp [takeDigits, hr]
  | cons d ds ih =>
    simp only [List.cons_append, takeDigits]
    rw [if_pos (hds d (by simp))]
    simp only [List.append_eq]
    rw [ih (fun c hc => hds c (by simp [hc]))]

theorem parseNat_renderNat (n : Nat) (rest : List Char)
    (hr : headNotDigit rest = true) :
    parseNat (renderNat n ++ rest) = some (n, rest) := by
  rcases hrn : renderNat n with _ | ⟨d, t⟩
  · exact absurd hrn (renderNat_ne_nil n)
  · have hds : ∀ c ∈ d :: t, isDigitChar c = true := by
      rw [← hrn]
      exact renderNat_digits n
    unfold parseNat
    rw [takeDigits_append (d :: t) rest hds hr]
    show some (digitsVal (d :: t), rest) = some (n, rest)
    rw [← hrn, digitsVal_renderNat]

/-- The characters after the `[` of a rendered array. -/
def Json.renderElems (xs : List Json) : List Char :=
  match xs with
  | [] => [']']
  | x :: xs => Json.render x ++ Json.renderArrTail xs

/-- The characters after the `{` of a rendered object. -/
def Json.renderFields (fs : List (String × Json)) : List Char :=
  match fs with
  | [] => ['}']
  | f :: fs => Json.renderField f ++ Json.renderObjTail fs

theorem render_arr (xs : List Json) :
    Json.render (.arr xs) = '[' :: Json.renderElems xs := by
  cases xs <;> rw [Json.render] <;> rfl

theorem render_obj (fs : List (String × Json)) :
    Json.render (.obj fs) = '{' :: Json.renderFields fs := by
  cases fs <;> rw [Json.render] <;> rfl

theorem renderArrTail_length_pos (xs : List Json) :
    1 ≤ (Json.renderArrTail xs).length := by
  cases xs <;> rw [Json.renderArrTail] <;> simp

theorem renderObjTail_length_pos (fs : List (String × Json)) :
    1 ≤ (Json.renderObjTail fs).length := by
  cases fs <;> rw [Json.renderObjTail] <;> simp

theorem renderField_length_pos (f : String × Json) :
    1 ≤ (Json.renderField f).length := by
  obtain ⟨k, v⟩ := f
  rw [Json.renderField]
  simp [encodeString]

theorem render_length_pos (j : Json) : 1 ≤ (Json.render j).length := by
  cases j with
  | null => rw [Json.render]; simp
  | bool b => cases b <;> rw [Json.render] <;> simp
  | num n =>
    rw [Json.render]
    unfold renderInt
    by_cases hn : n < 0
    · rw [if_pos hn]; simp
    · rw [if_neg hn]
      exact List.length_pos.mpr (renderNat_ne_nil _)
  | str s => rw [Json.render]; simp [encodeString]
  | arr xs => rw [render_arr]; simp
  | obj fs => rw [render_obj]; simp

theorem renderElems_length_pos (xs : List Json) :
    1 ≤ (Json.renderElems xs).length := by
  cases xs with
  | nil => rw [Json.renderElems]; simp
  | cons x xs =>
    rw [Json.renderElems]
    simp only [List.length_append]
    have := render_length_pos x
    omega

theorem renderFields_length_pos (fs : List (String × Json)) :
    1 ≤ (Json.renderFields fs).length := by
  cases fs with
  | nil => rw [Json.renderFields]; simp
  | cons f fs =>
    rw [Json.renderFields]
    simp only [List.length_append]
    have := renderField_length_pos f
    omega

theorem headNotDigit_arrTail (xs : List Json) (rest : List Char) :
    headNotDigit (Json.renderArrTail xs ++ rest) = true := by
  cases xs <;> rw [Json.renderArrTail] <;> rfl

theorem headNotDigit_objTail (fs : List (String × Json)) (rest : List Char) :
    headNotDigit (Json.renderObjTail fs ++ rest) = true := by
  cases fs <;> rw [Json.renderObjTail] <;> rfl

theorem render_head (j : Json) :
    ∃ c t, Json.render j = c :: t ∧ ¬ c = ']' ∧ ¬ c = '}' := by
  cases j with
  | null => exact ⟨'n', ['u', 'l', 'l'], by rw [Json.render], by decide, by decide⟩
  | bool b =>
    cases b
    · exact ⟨'f', ['a', 'l', 's', 'e'], by rw [Json.render], by decide, by decide⟩
    · exact ⟨'t', ['r', 'u', 'e'], by rw [Json.render], by decide, by decide⟩
  | num n =>
    rw [Json.render]
    unfold renderInt
    by_cases hn : n < 0
    · rw [if_pos hn]
      exact ⟨'-', renderNat n.natAbs, rfl, by decide, by decide⟩
    · rw [if_neg hn]
      rcases hrn : renderNat n.toNat with _ | ⟨d, t⟩
      · exact absurd hrn (renderNat_ne_nil _)
      · have hd : isDigitChar d = true := by
          refine renderNat_digits n.toNat d ?_
          rw [hrn]
          exact List.mem_cons_self _ _
        refine ⟨d, t, rfl, ?_, ?_⟩
        · intro h
          subst h
          exact absurd hd (by decide)
        · intro h
          subst h
          exact absurd hd (by decide)
  | str s =>
    exact ⟨'"', (s.data.map escapeChar).flatten ++ ['"'],
      by rw [Json.render]; rfl, by decide, by decide⟩
  | arr xs => exact ⟨'[', Json.renderElems xs, render_arr xs, by decide, by decide⟩
  | obj fs => exact ⟨'{', Json.renderFields fs, render_obj fs, by decide, by decide⟩

/-! ### One-step reduction lemmas for the fuel parser -/

theorem parseValue_null (f : Nat) (rest : List Char) :
    parseValue (f + 1) ('n' :: 'u' :: 'l' :: 'l' :: rest) = some (.null, rest) := by
  simp only [parseValue.eq_def]
  rfl

theorem parseValue_true (f : Nat) (rest : List Char) :
    parseValue (f + 1) ('t' :: 'r' :: 'u' :: 'e' :: rest)
      = some (.bool true, rest) := by
  simp only [parseValue.eq_def]
  rfl

theorem parseValue_false (f : Nat) (rest : List Char) :
    parseValue (f + 1) ('f' :: 'a' :: 'l' :: 's' :: 'e' :: rest)
      = some (.bool false, rest) := by
  simp only [parseValue.eq_def]
  rfl

theorem parseValue_str (f : Nat) (s : String) (rest : List Char) :
    parseValue (f + 1) ('"' :: ((s.data.map escapeChar).flatten ++ '"' :: rest))
      = some (.str s, rest) := by
  rw [parseValue.eq_def]
  show (match parseStringBody [] ((s.data.map escapeChar).flatten ++ '"' :: rest) with
        | some (s, r) => some (Json.str s, r)
        | none => none) = some (Json.str s, rest)
  rw [parseStringBody_encodeString]

theorem parseValue_digitHead (f : Nat) (c : Char) (t : List Char)
    (hd : isDigitChar c = true) :
    parseValue (f + 1) (c :: t)
      = (match parseNat (c :: t) with
         | some (n, r) => some (.num (n : Int), r)
         | none => none) := by
  simp only [parseValue.eq_def, hd, if_true]

theorem parseValue_minus (f : Nat) (t : List Char) :
    parseValue (f + 1) ('-' :: t)
      = (match parseNat t with
         | some (n, r) => some (.num (-(n : Int)), r)
         | none => none) := by
  simp only [parseValue.eq_def]
  rfl

theorem parseValue_arr (f : Nat) (L rest : List Char) (xs : List Json)
    (h : parseArrElems f L = some (xs, rest)) :
    parseValue (f + 1) ('[' :: L) = some (.arr xs, rest) := by
  rw [parseValue.eq_def]
  show (match parseArrElems f L with
        | some (js, r) => some (Json.arr js, r)
        | none => none) = some (Json.arr xs, rest)
  rw [h]

theorem parseValue_obj (f : Nat) (L rest : List Char) (fs : List (String × Json))
    (h : parseObjFields f L = some (fs, rest)) :
    parseValue (f + 1) ('{' :: L) = some (.obj fs, rest) := by
  rw [parseValue.eq_def]
  show (match parseObjFields f L with
        | some (gs, r) => some (Json.obj gs, r)
        | none => none) = some (Json.obj fs, rest)
  rw [h]

theorem parseValue_nat (f : Nat) (n : Nat) (rest : List Char)
    (hr : headNotDigit rest = true) :
    parseValue (f + 1) (renderNat n ++ rest) = some (.num (n : Int), rest) := by
  rcases hrn : renderNat n with _ | ⟨d, t⟩
  · exact absurd hrn (renderNat_ne_nil n)
  · have hd : isDigitChar d = true := by
      refine renderNat_digits n d ?_
      rw [hrn]
      exact List.mem_cons_self _ _
    rw [List.cons_append, parseValue_digitHead f d (t ++ rest) hd,
        ← List.cons_append, ← hrn, parseNat_renderNat n rest hr]

theorem parseArrElems_rbracket (f : Nat) (rest : List Char) :
    parseArrElems (f + 1) (']' :: rest) = some ([], rest) := by
  rw [parseArrElems.eq_def]
  rfl

theorem parseArrElems_cons (f : Nat) (c : Char) (t : List Char)
    (hne : ¬ c = ']') :
    parseArrElems (f + 1) (c :: t)
      = (match parseValue f (c :: t) with
         | some (j, r1) =>
           match parseArrTail f r1 with
           | some (js, r2) => some (j :: js, r2)
           | none => none
         | none => none) := by
  simp only [parseArrElems.eq_def, hne, if_false]

theorem parseArrTail_rbracket (f : Nat) (rest : List Char) :
    parseArrTail (f + 1) (']' :: rest) = some ([], rest) := by
  rw [parseArrTail.eq_def]
  rfl

theorem parseArrTail_comma (f : Nat) (t : List Char) :
    parseArrTail (f + 1) (',' :: t)
      = (match parseValue f t with
         | some (j, r1) =>
           match parseArrTail f r1 with
           | some (js, r2) => some (j :: js, r2)
           | none => none
         | none => none) := by
  rw [parseArrTail.eq_def]
  rfl

theorem parseField_step (f : Nat) (k : String) (X rest' : List Char) (v : Json)
    (hval : parseValue f X = some (v, rest')) :
    parseField (f + 1) ('"' :: ((k.data.map escapeChar).flatten ++ '"' :: ':' :: X))
      = some ((k, v), rest') := by
  simp only [parseField.eq_def]
  rw [parseStringBody_encodeString]
  show (match parseValue f X with
        | some (v, r2) => some ((k, v), r2)
        | none => none) = some ((k, v), rest')
  rw [hval]

theorem parseObjFields_rbrace (f : Nat) (rest : List Char) :
    parseObjFields (f + 1) ('}' :: rest) = some ([], rest) := by
  rw [parseObjFields.eq_def]
  rfl

theorem parseObjFields_cons (f : Nat) (c : Char) (t : List Char)
    (hne : ¬ c = '}') :
    parseObjFields (f + 1) (c :: t)
      = (match parseField f (c :: t) with
         | some (g, r1) =>
           match parseObjTail f r1 with
           | some (gs, r2) => some (g :: gs, r2)
           | none => none
         | none => none) := by
  simp only [parseObjFields.eq_def, hne, if_false]

theorem parseObjTail_rbrace (f : Nat) (rest : List Char) :
    parseObjTail (f + 1) ('}' :: rest) = some ([], rest) := by
  rw [parseObjTail.eq_def]
  rfl

theorem parseObjTail_comma (f : Nat) (t : List Char) :
    parseObjTail (f + 1) (',' :: t)
      = (match parseField f t with
         | some (g, r1) =>
           match parseObjTail f r1 with
           | some (gs, r2) => some (g :: gs, r2)
           | none => none
         | none => none) := by
  rw [parseObjTail.eq_def]
  rfl

/-- The parser inverts the renderer: with enough fuel, parsing a rendered
value (or element/field sequence) consumes exactly the rendered characters
and returns the original value, for any continuation that does not start
with a digit. -/
theorem parse_render_main (fuel : Nat) :
    (∀ (j : Json) (rest : List Char),
      (Json.render j).length ≤ fuel → headNotDigit rest = true →
      parseValue fuel (Json.render j ++ rest) = some (j, rest)) ∧
    (∀ (xs : List Json) (rest : List Char),
      (Json.renderElems xs).length ≤ fuel → headNotDigit rest = true →
      parseArrElems fuel (Json.renderElems xs ++ rest) = some (xs, rest)) ∧
    (∀ (xs : List Json) (rest : List Char),
      (Json.renderArrTail xs).length ≤ fuel → headNotDigit rest = true →
      parseArrTail fuel (Json.renderArrTail xs ++ rest) = some (xs, rest)) ∧
    (∀ (g : String × Json) (rest : List Char),
      (Json.renderField g).length ≤ fuel → headNotDigit rest = true →
      parseField fuel (Json.renderField g ++ rest) = some (g, rest)) ∧
    (∀ (fs : List (String × Json)) (rest : List Char),
      (Json.renderFields fs).length ≤ fuel → headNotDigit rest = true →
      parseObjFields fuel (Json.renderFields fs ++ rest) = some (fs, rest)) ∧
    (∀ (fs : List (String × Json)) (rest : List Char),
      (Json.renderObjTail fs).length ≤ fuel → headNotDigit rest = true →
      parseObjTail fuel (Json.renderObjTail fs ++ rest) = some (fs, rest)) := by
  induction fuel with
  | zero =>
    refine ⟨?_, ?_, ?_, ?_, ?_, ?_⟩
    · intro j rest hlen _
      exact absurd hlen (by have := render_length_pos j; omega)
    · intro xs rest hlen _
      exact absurd hlen (by have := renderElems_length_pos xs; omega)
    · intro xs rest hlen _
      exact absurd hlen (by have := renderArrTail_length_pos xs; omega)
    · intro g rest hlen _
      exact absurd hlen (by have := renderField_length_pos g; omega)
    · intro fs rest hlen _
      exact absurd hlen (by have := renderFields_length_pos fs; omega)
    · intro fs rest hlen _
      exact absurd hlen (by have := renderObjTail_length_pos fs; omega)
  | succ f ih =>
    obtain ⟨ih1, ih2, ih3, ih4, ih5, ih6⟩ := ih
    refine ⟨?_, ?_, ?_, ?_, ?_, ?_⟩
    · intro j rest hlen hr
      cases j with
      | null =>
        rw [show Json.render .null = ['n', 'u', 'l', 'l'] from by rw [Json.render]]
        exact parseValue_null f rest
      | bool b =>
        cases b
        · rw [show Json.render (.bool false) = ['f', 'a', 'l', 's', 'e'] from by
            rw [Json.render]]
          exact parseValue_false f rest
        · rw [show Json.render (.bool true) = ['t', 'r', 'u', 'e'] from by
            rw [Json.render]]
          exact parseValue_true f rest
      | num n =>
        rw [show Json.render (.num n) = renderInt n from by rw [Json.render]]
        unfold renderInt
        by_cases hn : n < 0
        · rw [if_pos hn, List.cons_append, parseValue_minus f _,
              parseNat_renderNat n.natAbs rest hr]
          show some (Json.num (-(n.natAbs : Int)), rest) = some (Json.num n, rest)
          have hsign : -(n.natAbs : Int) = n := by omega
          rw [hsign]
        · rw [if_neg hn, parseValue_nat f n.toNat rest hr]
          have hval : ((n.toNat : Nat) : Int) = n := Int.toNat_of_nonneg (by omega)
          rw [hval]
      | str s =>
        rw [show Json.render (.str s) = encodeString s from by rw [Json.render]]
        rw [show encodeString s ++ rest
            = '"' :: ((s.data.map escapeChar).flatten ++ '"' :: rest) from by
          simp [encodeString]]
        exact parseValue_str f s rest
      | arr xs =>
        rw [render_arr] at hlen ⊢
        rw [List.cons_append]
        refine parseValue_arr f _ rest xs (ih2 xs rest ?_ hr)
        simp only [List.length_cons] at hlen
        omega
      | obj fs =>
        rw [render_obj] at hlen ⊢
        rw [List.cons_append]
        refine parseValue_obj f _ rest fs (ih5 fs rest ?_ hr)
        simp only [List.length_cons] at hlen
        omega
    · intro xs rest hlen hr
      cases xs with
      | nil =>
        rw [Json.renderElems]
        exact parseArrElems_rbracket f rest
      | cons x xs =>
        rw [Json.renderElems] at hlen ⊢
        simp only [List.length_append] at hlen
        rw [List.append_assoc]
        obtain ⟨c, t, hct, hc1, _⟩ := render_head x
        rw [hct, List.cons_append, parseArrElems_cons f c _ hc1,
            ← List.cons_append, ← hct]
        have h1 : parseValue f (Json.render x ++ (Json.renderArrTail xs ++ rest))
            = some (x, Json.renderArrTail xs ++ rest) := by
          refine ih1 x _ ?_ (headNotDigit_arrTail xs rest)
          have := renderArrTail_length_pos xs
          omega
        rw [h1]
        show (match parseArrTail f (Json.renderArrTail xs ++ rest) with
              | some (js, r2) => some (x :: js, r2)
              | none => none) = some (x :: xs, rest)
        have h2 : parseArrTail f (Json.renderArrTail xs ++ rest)
            = some (xs, rest) := by
          refine ih3 xs rest ?_ hr
          have := render_length_pos x
          omega
        rw [h2]
    · intro xs rest hlen hr
      cases xs with
      | nil =>
        rw [Json.renderArrTail]
        exact parseArrTail_rbracket f rest
      | cons x xs =>
        rw [Json.renderArrTail] at hlen ⊢
        simp only [List.length_cons, List.length_append] at hlen
        rw [List.cons_append, parseArrTail_comma f _, List.append_assoc]
        have h1 : parseValue f (Json.render x ++ (Json.renderArrTail xs ++ rest))
            = some (x, Json.renderArrTail xs ++ rest) := by
          refine ih1 x _ ?_ (headNotDigit_arrTail xs rest)
          have := renderArrTail_length_pos xs
          omega
        rw [h1]
        show (match parseArrTail f (Json.renderArrTail xs ++ rest) with
              | some (js, r2) => some (x :: js, r2)
              | none => none) = some (x :: xs, rest)
        have h2 : parseArrTail f (Json.renderArrTail xs ++ rest)
            = some (xs, rest) := by
          refine ih3 xs rest ?_ hr
          have := render_length_pos x
          omega
        rw [h2]
    · intro g rest hlen hr
      obtain ⟨k, v⟩ := g
      rw [Json.renderField] at hlen ⊢
      simp only [List.length_append, List.length_cons] at hlen
      rw [show (encodeString k ++ ':' :: Json.render v) ++ rest
          = '"' :: ((k.data.map escapeChar).flatten
              ++ '"' :: ':' :: (Json.render v ++ rest)) from by
        simp [encodeString]]
      refine parseField_step f k _ rest v (ih1 v rest ?_ hr)
      have henc : 1 ≤ (encodeString k).length := by simp [encodeString]
      omega
    · intro fs rest hlen hr
      cases fs with
      | nil =>
        rw [Json.renderFields]
        exact parseObjFields_rbrace f rest
      | cons g fs =>
        obtain ⟨k, v⟩ := g
        rw [Json.renderFields] at hlen ⊢
        simp only [List.length_append] at hlen
        rw [List.append_assoc]
        have hkv : Json.renderField (k, v)
            = '"' :: ((k.data.map escapeChar).flatten
                ++ '"' :: ':' :: Json.render v) := by
          rw [Json.renderField]
          simp [encodeString]
        rw [hkv, List.cons_append, parseObjFields_cons f '"' _ (by decide)]
        have h1 : parseField f
              ('"' :: (((k.data.map escapeChar).flatten
                  ++ '"' :: ':' :: Json.render v)
                ++ (Json.renderObjTail fs ++ rest)))
            = some ((k, v), Json.renderObjTail fs ++ rest) := by
          have hmain := ih4 (k, v) (Json.renderObjTail fs ++ rest)
            (by have := renderObjTail_length_pos fs; omega)
            (headNotDigit_objTail fs rest)
          rw [hkv, List.cons_append] at hmain
          exact hmain
        rw [h1]
        show (match parseObjTail f (Json.renderObjTail fs ++ rest) with
              | some (gs, r2) => some ((k, v) :: gs, r2)
              | none => none) = some ((k, v) :: fs, rest)
        have h2 : parseObjTail f (Json.renderObjTail fs ++ rest)
            = some (fs, rest) := by
          refine ih6 fs rest ?_ hr
          have := renderField_length_pos (k, v)
          omega
        rw [h2]
    · intro fs rest hlen hr
      cases fs with
      | nil =>
        rw [Json.renderObjTail]
        exact parseObjTail_rbrace f rest
      | cons g fs =>
        rw [Json.renderObjTail] at hlen ⊢
        simp only [List.length_cons, List.length_append] at hlen
        rw [List.cons_append, parseObjTail_comma f _, List.append_assoc]
        have h1 : parseField f
              (Json.renderField g ++ (Json.renderObjTail fs ++ rest))
            = some (g, Json.renderObjTail fs ++ rest) := by
          refine ih4 g _ ?_ (headNotDigit_objTail fs rest)
          have := renderObjTail_length_pos fs
          omega
        rw [h1]
        show (match parseObjTail f (Json.renderObjTail fs ++ rest) with
              | some (gs, r2) => some (g :: gs, r2)
              | none => none) = some (g :: fs, rest)
        have h2 : parseObjTail f (Json.renderObjTail fs ++ rest)
            = some (fs, rest) := by
          refine ih6 fs rest ?_ hr
          have := renderField_length_pos g
          omega
        rw [h2]

/-- Parsing inverts `JSON.stringify` on every modelled JSON value. -/
theorem parse_stringify (j : Json) : Json.parse (Json.stringify j) = some j := by
  have h := (parse_render_main (Json.render j).length).1 j [] (le_refl _) rfl
  rw [List.append_nil] at h
  unfold Json.parse Json.stringify
  show (match parseValue (Json.render j).length (Json.render j) with
        | some (j, []) => some j
        | _ => none) = some j
  rw [h]

theorem statementOfJson_toJson (s : PolicyStatement) :
    statementOfJson (statementToJson s) = some s := by
  cases s
  rfl

theorem statementsOfJson_map (ss : List PolicyStatement) :
    statementsOfJson (ss.map statementToJson) = some ss := by
  induction ss with
  | nil => rfl
  | cons s ss ih =>
    simp only [List.map_cons, statementsOfJson, statementOfJson_toJson, ih]

theorem policyOfJson_toJson (p : ResourcePolicy) :
    policyOfJson (policyToJson p) = some p := by
  obtain ⟨v, ss⟩ := p
  show policyOfJson (Json.obj
      [("Version", Json.str v), ("Statement", Json.arr (ss.map statementToJson))])
    = some { Version := v, Statement := ss }
  rw [policyOfJson]
  rw [statementsOfJson_map]

/-- C8: for every policy document the builder produces, serializing it with
`JSON.stringify` and re-parsing the resulting string yields exactly the
document's JSON tree (structural equality), and the document itself is
recovered from that tree. -/
theorem policy_stringify_roundtrip (l : List Json) (pd : ResourcePolicy)
    (_h : buildPolicy l = some pd) :
    Json.parse (Json.stringify (policyToJson pd)) = some (policyToJson pd) ∧
    policyOfJson (policyToJson pd) = some pd :=
  ⟨parse_stringify (policyToJson pd), policyOfJson_toJson pd⟩

theorem policy_stringify_roundtrip_witness :
    buildPolicy [Json.str "o-1"]
        = some (⟨"2012-10-17",
            [⟨"AllowAccessForAllowedAccounts", "Allow", "*",
              "execute-api:Invoke", "*", [Json.str "o-1"]⟩]⟩ : ResourcePolicy) ∧
    (Json.parse (Json.stringify (policyToJson
          (⟨"2012-10-17",
            [⟨"AllowAccessForAllowedAccounts", "Allow", "*",
              "execute-api:Invoke", "*", [Json.str "o-1"]⟩]⟩ : ResourcePolicy)))
        = some (policyToJson
            (⟨"2012-10-17",
              [⟨"AllowAccessForAllowedAccounts", "Allow", "*",
                "execute-api:Invoke", "*", [Json.str "o-1"]⟩]⟩ : ResourcePolicy)) ∧
      policyOfJson (policyToJson
          (⟨"2012-10-17",
            [⟨"AllowAccessForAllowedAccounts", "Allow", "*",
              "execute-api:Invoke", "*", [Json.str "o-1"]⟩]⟩ : ResourcePolicy))
        = some (⟨"2012-10-17",
            [⟨"AllowAccessForAllowedAccounts", "Allow", "*",
              "execute-api:Invoke", "*", [Json.str "o-1"]⟩]⟩ : ResourcePolicy)) :=
  ⟨rfl, policy_stringify_roundtrip [Json.str "o-1"] _ rfl⟩
